import Mathlib

/-!
Verification of the crypto news scraper (`Crypto_api.py`).

The development shallowly embeds the core function `scrape_crypto_news`:
HTML documents become a tree type `Node`, BeautifulSoup traversals become
pre-order list traversals, Python strings become Lean `String` with
character-list based helpers matching Python semantics (`strip`, `lower`,
`in`, `count`, slicing), and the two network fetches become explicit
`Except String Node` values/functions supplied by the environment.
-/

namespace CryptoApi

/-! ### String helpers (Python semantics over character lists) -/

/-- Whitespace characters removed by Python `str.strip()`. -/
def isWs (c : Char) : Bool :=
  c == ' ' || c == '\t' || c == '\n' || c == '\r' || c == '\x0b' || c == '\x0c'

/-- Python `str.strip()`. -/
def strTrim (s : String) : String :=
  ⟨((s.data.dropWhile isWs).reverse.dropWhile isWs).reverse⟩

/-- Python `str.lower()` (ASCII letters, as in the scraped markup). -/
def strLower (s : String) : String := ⟨s.data.map Char.toLower⟩

/-- Scan for an occurrence of `needle` as a contiguous sub-list. -/
def subScan (needle : List Char) : List Char → Bool
  | [] => needle.isEmpty
  | c :: rest => needle.isPrefixOf (c :: rest) || subScan needle rest

/-- Python `needle in hay` for strings. -/
def isSubstr (needle hay : String) : Bool := subScan needle.data hay.data

/-- Python `s.startswith(pre)`. -/
def strStartsWith (s pre : String) : Bool := pre.data.isPrefixOf s.data

/-- Python slicing `s[:n]`. -/
def strTake (n : Nat) (s : String) : String := ⟨s.data.take n⟩

/-- Python `s.count(c)` for a single character. -/
def countChar (c : Char) (s : String) : Nat := s.data.count c

/-! ### HTML document model

A parsed document is a tree of element tags (with attributes) and text
nodes.  The `BeautifulSoup` object itself is modelled as a root element
node (tag `"[document]"`) whose children are the top-level parse nodes. -/

mutual
inductive Node where
  | elem (tag : String) (attrs : List (String × String)) (children : NodeList)
  | text (s : String)
deriving Repr
inductive NodeList where
  | nil
  | cons (head : Node) (tail : NodeList)
deriving Repr
end

/-- Build a `NodeList` from a Lean list (convenience for concrete documents). -/
def NodeList.ofList : List Node → NodeList
  | [] => .nil
  | n :: rest => .cons n (NodeList.ofList rest)

/-- The tag name of an element node. -/
def Node.tagName : Node → Option String
  | .elem t _ _ => some t
  | .text _ => none

/-- The children of a node. -/
def Node.childrenL : Node → NodeList
  | .elem _ _ cs => cs
  | .text _ => .nil

/-- Attribute lookup, i.e. BeautifulSoup `tag.get(key)` / `tag[key]`. -/
def Node.getAttr : Node → String → Option String
  | .elem _ attrs _, key => attrs.lookup key
  | .text _, _ => none

mutual
/-- Pre-order (document order) listing of a subtree, including the root. -/
def subtreeN : Node → List Node
  | .text s => [.text s]
  | .elem t a cs => .elem t a cs :: subtreeL cs
/-- Pre-order listing of a forest of sibling subtrees. -/
def subtreeL : NodeList → List Node
  | .nil => []
  | .cons n rest => subtreeN n ++ subtreeL rest
end

/-- BeautifulSoup `tag.descendants` in document order
(`find_all` scans exactly this sequence). -/
def descendants (n : Node) : List Node := subtreeL n.childrenL

mutual
/-- Pre-order listing of a subtree, each node paired with its parent
(the extra argument is the parent of the root of the subtree). -/
def withParentsN (p : Node) : Node → List (Node × Node)
  | .text s => [(.text s, p)]
  | .elem t a cs => (.elem t a cs, p) :: withParentsL (.elem t a cs) cs
/-- Pre-order parent-pairing over a forest of sibling subtrees. -/
def withParentsL (p : Node) : NodeList → List (Node × Node)
  | .nil => []
  | .cons n rest => withParentsN p n ++ withParentsL p rest
end

/-- All nodes of a document in document order, paired with their parents
(the parent of a top-level node is the document object itself). -/
def docNodes (doc : Node) : List (Node × Node) := withParentsL doc doc.childrenL

/-- The text fragments (text descendants) of a node, in document order. -/
def textFragments (n : Node) : List String :=
  (subtreeN n).filterMap fun m =>
    match m with
    | .text s => some s
    | .elem _ _ _ => none

/-- BeautifulSoup `get_text()`: concatenation of all text descendants. -/
def getText (n : Node) : String := String.join (textFragments n)

/-- BeautifulSoup `get_text(strip=True)`: concatenation of the stripped
text fragments. -/
def getTextStrip (n : Node) : String := String.join ((textFragments n).map strTrim)

/-! ### Article discovery (Step 1 of `scrape_crypto_news`) -/

/-- The constant `base_url = "https://crypto.news"`. -/
def base_url : String := "https://crypto.news"

/-- A heading-like element (`h1`/`h2`/`h3`/`div`) whose
`get_text().strip().lower()` equals `'latest'`. -/
def isLatestHeading (n : Node) : Bool :=
  match n with
  | .elem t _ _ =>
      (t == "h1" || t == "h2" || t == "h3" || t == "div") &&
      strLower (strTrim (getText n)) == "latest"
  | .text _ => false

/-- Strategy 1: the parent of the first heading-like element in document
order whose text is exactly `'latest'`. -/
def strat1 (doc : Node) : Option Node :=
  ((docNodes doc).find? fun p => isLatestHeading p.1).map Prod.snd

/-- A `section`/`div` whose class attribute contains `'latest'`
(case-insensitively), i.e. the `class_` lambda of strategy 2. -/
def hasLatestClassAttr (n : Node) : Bool :=
  match n.tagName with
  | some t =>
      (t == "section" || t == "div") &&
      (match n.getAttr "class" with
       | some c => isSubstr "latest" (strLower c)
       | none => false)
  | none => false

/-- Strategy 2: `soup.find(['section', 'div'], class_=...)`. -/
def strat2 (doc : Node) : Option Node := (descendants doc).find? hasLatestClassAttr

/-- An `h1`/`h2`/`h3` element whose text contains `'latest'` as a substring. -/
def isLatestSubstrHeading (n : Node) : Bool :=
  match n with
  | .elem t _ _ =>
      (t == "h1" || t == "h2" || t == "h3") &&
      isSubstr "latest" (strLower (getText n))
  | .text _ => false

/-- A `section`/`div`/`article` element. -/
def isRegionTag (n : Node) : Bool :=
  match n.tagName with
  | some t => t == "section" || t == "div" || t == "article"
  | none => false

/-- Strategy 3 scan over the document-order node list: at the first
heading containing `'latest'`, take `find_next(['section','div','article'])`,
i.e. the first such element later in document order. -/
def strat3scan : List Node → Option Node
  | [] => none
  | n :: rest =>
      if isLatestSubstrHeading n then rest.find? isRegionTag
      else strat3scan rest

/-- Strategy 3 on a document. -/
def strat3 (doc : Node) : Option Node := strat3scan (descendants doc)

/-- The strategy chain of `scrape_crypto_news`, parameterised by the
second and third fallback strategies (instantiated by `findRegion`). -/
def findRegionWith (s2 s3 : Node → Option Node) (doc : Node) : Option Node :=
  match strat1 doc with
  | some r => some r
  | none =>
      match s2 doc with
      | some r => some r
      | none => s3 doc

/-- The `latest_section` computed by the three ordered strategies. -/
def findRegion (doc : Node) : Option Node := findRegionWith strat2 strat3 doc

/-- The call `latest_section.find_all('a', href=True)` followed by
`link['href']`: the href attributes of all anchor descendants, in document
order. -/
def hrefsOf (region : Node) : List String :=
  (descendants region).filterMap fun n =>
    match n with
    | .elem t attrs _ => if t == "a" then attrs.lookup "href" else none
    | .text _ => none

/-- Resolution of a leading-`/` href against the base URL. -/
def resolveUrl (baseUrl href : String) : String :=
  if strStartsWith href "/" then baseUrl ++ href else href

/-- The excluded URL substrings. -/
def bannedParts : List String :=
  ["/category/", "/tag/", "/author/", "#", "/buy-crypto/", "/events/", "/meme-coins/"]

/-- The acceptance filter of the URL loop. -/
def acceptUrl (baseUrl : String) (acc : List String) (url : String) : Bool :=
  isSubstr baseUrl url &&
  decide (4 ≤ countChar '/' url) &&
  !(acc.contains url) &&
  !(bannedParts.any fun b => isSubstr b url)

/-- The URL-collection loop over the region's hrefs, with the
`len(article_urls) == limit` break (the loop body checks the length only
after an append, mirroring the Python code). -/
def collectUrls (baseUrl : String) (limit : Int) (acc : List String) :
    List String → List String
  | [] => acc
  | href :: rest =>
      let url := resolveUrl baseUrl href
      if acceptUrl baseUrl acc url then
        let acc2 := acc ++ [url]
        if (acc2.length : Int) = limit then acc2
        else collectUrls baseUrl limit acc2 rest
      else collectUrls baseUrl limit acc rest

/-- Modelled from the spec: the full sequence of qualifying URLs — the same
loop with no `limit` break.  Used to compare the limited loop against
"all the qualifying anchors" in the claims. -/
def qualifyingUrls (baseUrl : String) (acc : List String) :
    List String → List String
  | [] => acc
  | href :: rest =>
      let url := resolveUrl baseUrl href
      if acceptUrl baseUrl acc url then qualifyingUrls baseUrl (acc ++ [url]) rest
      else qualifyingUrls baseUrl acc rest

/-- Step 1 of `scrape_crypto_news`: the `article_urls` list (empty when no
strategy yields a `latest_section`, since the extraction loop is guarded by
`if latest_section:`). -/
def discoverUrls (doc : Node) (limit : Int) : List String :=
  match findRegion doc with
  | some region => collectUrls base_url limit [] (hrefsOf region)
  | none => []

/-! ### Article extraction (Step 2 of `scrape_crypto_news`) -/

/-- The per-article record. -/
structure Article where
  url : String
  title : String
  summary : String
  content : String
  date : String
  scraped_at : String
deriving Repr, DecidableEq

/-- The call `soup.find(t)`: first element with the given tag, in
document order. -/
def findTag (t : String) (doc : Node) : Option Node :=
  (descendants doc).find? fun n => n.tagName == some t

/-- Title extraction: `soup.find('h1')` then `get_text(strip=True)`. -/
def extractTitle (doc : Node) : String :=
  match findTag "h1" doc with
  | some h1 => getTextStrip h1
  | none => ""

/-- The stripped texts of all paragraph descendants of a node, in document
order (`article_tag.find_all('p')` with `get_text(strip=True)`). -/
def paragraphTexts (a : Node) : List String :=
  ((descendants a).filter fun n => n.tagName == some "p").map getTextStrip

/-- Content extraction: paragraphs of the first `article` tag whose text is
longer than 50 characters, joined by blank lines. -/
def extractContent (doc : Node) : String :=
  let parts : List String :=
    match findTag "article" doc with
    | some a => (paragraphTexts a).filter fun t => 50 < t.length
    | none => []
  String.intercalate "\n\n" parts

/-- A `meta` tag with `name="description"`. -/
def isDescMeta (n : Node) : Bool :=
  n.tagName == some "meta" && n.getAttr "name" == some "description"

/-- Summary extraction: the `content` attribute of the description meta tag
(the Python code checks `meta_desc.get('content')` for truthiness, so an
empty attribute value leaves the summary empty). -/
def extractSummary (doc : Node) : String :=
  match (descendants doc).find? isDescMeta with
  | some m =>
      match m.getAttr "content" with
      | some c => if c == "" then "" else c
      | none => ""
  | none => ""

/-- Date extraction: `time_tag.get('datetime', '') or time_tag.get_text(strip=True)`. -/
def extractDate (doc : Node) : String :=
  match findTag "time" doc with
  | some tt =>
      match tt.getAttr "datetime" with
      | some d => if d == "" then getTextStrip tt else d
      | none => getTextStrip tt
  | none => ""

/-- The successful-branch article record for one URL
(`now` models `datetime.now().isoformat()`). -/
def extractArticle (url : String) (doc : Node) (now : String) : Article :=
  { url := url
    title := extractTitle doc
    summary := extractSummary doc
    content := extractContent doc
    date := extractDate doc
    scraped_at := now }

/-- The degraded record appended when fetching/parsing one article raises. -/
def degradedArticle (url e now : String) : Article :=
  { url := url
    title := "Error fetching article"
    summary := ""
    content := "Error: " ++ strTake 200 e
    date := ""
    scraped_at := now }

/-- One iteration of the per-article loop: fetch the URL and build either
the extracted record or the degraded record. -/
def scrapeStep (fetch : String → Except String Node) (now url : String) : Article :=
  match fetch url with
  | .ok doc => extractArticle url doc now
  | .error e => degradedArticle url e now

/-- The whole of `scrape_crypto_news`: `homepage` is the outcome of the
homepage fetch+parse, `fetch` the per-article fetch+parse, `now` the clock.
Raised exceptions are modelled as `Except.error` with the exception message. -/
def scrape_crypto_news (homepage : Except String Node)
    (fetch : String → Except String Node) (now : String) (limit : Int) :
    Except String (List Article) :=
  match homepage with
  | .error e => .error ("Network error: " ++ e)
  | .ok doc =>
      let article_urls := discoverUrls doc limit
      if article_urls.isEmpty then
        .error "Could not find articles. Website structure may have changed."
      else
        let articles := article_urls.map (scrapeStep fetch now)
        if articles.isEmpty then .error "No articles were scraped successfully"
        else .ok articles

/-! ### Concrete documents used in witnesses and counterexamples -/

/-- An anchor element with an href and link text. -/
def anchor (href : String) (txt : String) : Node :=
  .elem "a" [("href", href)] (NodeList.ofList [.text txt])

/-- A homepage with a `latest` region holding three qualifying anchors and
one category anchor. -/
def wDoc : Node :=
  .elem "[document]" [] (NodeList.ofList [
    .elem "div" [] (NodeList.ofList [
      .elem "h2" [] (NodeList.ofList [.text " Latest "]),
      anchor "/markets/bitcoin-rallies/today/" "Bitcoin rallies",
      anchor "/markets/eth-update/today/" "ETH update",
      anchor "/category/markets/" "Markets category",
      anchor "/markets/sol-update/today/" "SOL update"])])

/-- The region that strategy 1 resolves inside `wDoc` (the parent `div` of
the `h2` heading). -/
def wRegion : Node :=
  .elem "div" [] (NodeList.ofList [
    .elem "h2" [] (NodeList.ofList [.text " Latest "]),
    anchor "/markets/bitcoin-rallies/today/" "Bitcoin rallies",
    anchor "/markets/eth-update/today/" "ETH update",
    anchor "/category/markets/" "Markets category",
    anchor "/markets/sol-update/today/" "SOL update"])

/-- A homepage with no `latest` region at all. -/
def docNoLatest : Node :=
  .elem "[document]" [] (NodeList.ofList [.elem "p" [] (NodeList.ofList [.text "hello"])])

/-- A homepage whose `latest` region exists but holds no acceptable URL
(the only anchor contains `#`). -/
def docLatestNoUrls : Node :=
  .elem "[document]" [] (NodeList.ofList [
    .elem "div" [] (NodeList.ofList [
      .elem "h2" [] (NodeList.ofList [.text "Latest"]),
      anchor "#frag" "frag link"])])

/-- An article page with a level-1 heading and no `article` container. -/
def bitcoinDoc : Node :=
  .elem "[document]" [] (NodeList.ofList [
    .elem "h1" [] (NodeList.ofList [.text "Bitcoin Hits $100K"])])

/-! ### Helper lemmas about the URL-collection loop -/

/-- The loop only appends to its accumulator. -/
theorem collect_append (b : String) (ℓ : Int) :
    ∀ (hrefs acc : List String), ∃ t, collectUrls b ℓ acc hrefs = acc ++ t := by
  intro hrefs
  induction hrefs with
  | nil => intro acc; exact ⟨[], by simp [collectUrls]⟩
  | cons href rest ih =>
      intro acc
      simp only [collectUrls]
      split
      · split
        · exact ⟨[resolveUrl b href], rfl⟩
        · obtain ⟨t, ht⟩ := ih (acc ++ [resolveUrl b href])
          exact ⟨resolveUrl b href :: t, by rw [ht, List.append_assoc]; rfl⟩
      · exact ih acc

/-- An accepted URL is not already in the accumulator. -/
theorem acceptUrl_not_mem {b : String} {acc : List String} {url : String}
    (h : acceptUrl b acc url = true) : url ∉ acc := by
  simp only [acceptUrl, Bool.and_eq_true, Bool.not_eq_true'] at h
  have := h.1.2
  simpa using this

/-- The unlimited loop appends a deduplicated, order-preserving selection of
the resolved hrefs to its accumulator. -/
theorem qualifying_spec (b : String) :
    ∀ (hrefs acc : List String),
      ∃ t, qualifyingUrls b acc hrefs = acc ++ t ∧
        List.Sublist t (hrefs.map (resolveUrl b)) ∧
        (acc.Nodup → (acc ++ t).Nodup) := by
  intro hrefs
  induction hrefs with
  | nil =>
      intro acc
      exact ⟨[], by simp [qualifyingUrls], List.nil_sublist _, fun h => by simpa using h⟩
  | cons href rest ih =>
      intro acc
      by_cases h : acceptUrl b acc (resolveUrl b href) = true
      · obtain ⟨t, ht, hsub, hnd⟩ := ih (acc ++ [resolveUrl b href])
        refine ⟨resolveUrl b href :: t, ?_, ?_, ?_⟩
        · simp only [qualifyingUrls, h, if_pos]
          rw [ht, List.append_assoc]
          rfl
        · simpa using List.Sublist.cons₂ (resolveUrl b href) hsub
        · intro hacc
          have hmem : resolveUrl b href ∉ acc := acceptUrl_not_mem h
          have h1 : (acc ++ [resolveUrl b href]).Nodup := by
            simp [List.nodup_append, hacc, hmem]
          have h2 := hnd h1
          rwa [List.append_assoc] at h2
      · obtain ⟨t, ht, hsub, hnd⟩ := ih acc
        refine ⟨t, ?_, hsub.trans (by simp), hnd⟩
        simp [qualifyingUrls, h, ht]

/-- With the accumulator strictly below the limit, the limited loop computes
the `limit`-prefix of the unlimited loop. -/
theorem collect_eq_take (b : String) :
    ∀ (hrefs : List String) (ℓ : Int) (acc : List String),
      (acc.length : Int) < ℓ →
      collectUrls b ℓ acc hrefs = (qualifyingUrls b acc hrefs).take ℓ.toNat := by
  intro hrefs
  induction hrefs with
  | nil =>
      intro ℓ acc h
      simp only [collectUrls, qualifyingUrls]
      rw [List.take_of_length_le (by omega)]
  | cons href rest ih =>
      intro ℓ acc h
      simp only [collectUrls, qualifyingUrls]
      split
      · split
        · rename_i hacc hstop
          obtain ⟨t, ht, _, _⟩ := qualifying_spec b rest (acc ++ [resolveUrl b href])
          rw [ht]
          have hlen : (acc ++ [resolveUrl b href]).length = ℓ.toNat := by
            simp only [List.length_append, List.length_singleton] at hstop ⊢
            omega
          rw [← hlen, List.take_left]
        · rename_i hacc hstop
          have hlt : ((acc ++ [resolveUrl b href]).length : Int) < ℓ := by
            simp only [List.length_append, List.length_singleton] at hstop ⊢
            push_cast
            omega
          exact ih ℓ (acc ++ [resolveUrl b href]) hlt
      · exact ih ℓ acc h

/-- Once the limited loop has reached exactly `limit` URLs on a prefix of
its input, the remaining input is never scanned. -/
theorem collect_limit_stop (b : String) :
    ∀ (p s : List String) (ℓ : Int) (acc : List String),
      (acc.length : Int) < ℓ →
      ((collectUrls b ℓ acc p).length : Int) = ℓ →
      collectUrls b ℓ acc (p ++ s) = collectUrls b ℓ acc p := by
  intro p
  induction p with
  | nil =>
      intro s ℓ acc h hl
      simp only [collectUrls] at hl
      omega
  | cons href rest ih =>
      intro s ℓ acc h hl
      simp only [collectUrls, List.cons_append] at hl ⊢
      split
      · split
        · rfl
        · rename_i hacc hstop
          have hlt : ((acc ++ [resolveUrl b href]).length : Int) < ℓ := by
            simp only [List.length_append, List.length_singleton] at hstop ⊢
            push_cast
            omega
          simp only [hacc, if_pos, hstop, if_neg, not_false_iff] at hl
          exact ih s ℓ (acc ++ [resolveUrl b href]) hlt hl
      · rename_i hacc
        simp only [hacc, Bool.false_eq_true, if_false] at hl
        exact ih s ℓ acc h hl

/-- With a non-positive limit, the length-equality break never fires and the
limited loop agrees with the unlimited loop. -/
theorem collect_nolimit (b : String) :
    ∀ (hrefs : List String) (ℓ : Int) (acc : List String), ℓ ≤ 0 →
      collectUrls b ℓ acc hrefs = qualifyingUrls b acc hrefs := by
  intro hrefs
  induction hrefs with
  | nil => intro ℓ acc _; rfl
  | cons href rest ih =>
      intro ℓ acc hle
      simp only [collectUrls, qualifyingUrls]
      split
      · split
        · rename_i hstop
          simp only [List.length_append, List.length_singleton] at hstop
          omega
        · exact ih ℓ (acc ++ [resolveUrl b href]) hle
      · exact ih ℓ acc hle

/-- Both branches of the per-article loop preserve the input URL. -/
theorem scrapeStep_url (fetch : String → Except String Node) (now url : String) :
    (scrapeStep fetch now url).url = url := by
  cases h : fetch url <;> simp [scrapeStep, h, extractArticle, degradedArticle]

/-! ### Claim theorems -/

/-- C1. Per-article fault isolation: for every discovered URL, a fetch/parse
failure for that article is absorbed at the per-article boundary; the batch
still has one record per URL, and the record at that URL's position is the
degraded Article with `title = "Error fetching article"`, `content`
starting with `"Error: "`, empty `summary` and `date`, and `scraped_at`
set to the extraction timestamp. -/
theorem claim_C1 (fetch : String → Except String Node) (now : String)
    (urls : List String) (i : Nat) (url e : String)
    (hu : urls[i]? = some url) (he : fetch url = .error e) :
    (urls.map (scrapeStep fetch now)).length = urls.length ∧
    (urls.map (scrapeStep fetch now))[i]? = some
      { url := url, title := "Error fetching article", summary := "",
        content := "Error: " ++ strTake 200 e, date := "", scraped_at := now } ∧
    strStartsWith ("Error: " ++ strTake 200 e) "Error: " = true := by
  refine ⟨List.length_map _ _, ?_, ?_⟩
  · rw [List.getElem?_map, hu]
    simp [scrapeStep, he, degradedArticle]
  · show ("Error: ").data.isPrefixOf (("Error: " ++ strTake 200 e).data) = true
    rw [String.data_append]
    rw [ List.isPrefixOf_iff_prefix]
    exact List.prefix_append _ _

/-- Witness for C1 at a concrete failing fetch. -/
theorem claim_C1_witness :
    ((["u1"].map (scrapeStep (fun _ => .error "boom") "T")).length = ["u1"].length) ∧
    (["u1"].map (scrapeStep (fun _ => .error "boom") "T"))[0]? = some
      { url := "u1", title := "Error fetching article", summary := "",
        content := "Error: " ++ strTake 200 "boom", date := "", scraped_at := "T" } ∧
    strStartsWith ("Error: " ++ strTake 200 "boom") "Error: " = true :=
  claim_C1 (fun _ => .error "boom") "T" ["u1"] 0 "u1" "boom" rfl rfl

/-- C7. On extraction failure the degraded record's `content` is the
`"Error: "` marker followed by the failure description truncated to at
most 200 characters. -/
theorem claim_C7 (fetch : String → Except String Node) (now url e : String)
    (he : fetch url = .error e) :
    (scrapeStep fetch now url).content = "Error: " ++ strTake 200 e ∧
    (strTake 200 e).length ≤ 200 := by
  constructor
  · simp [scrapeStep, he, degradedArticle]
  · show (e.data.take 200).length ≤ 200
    simp [List.length_take]

/-- Witness for C7 with a description longer than 200 characters. -/
theorem claim_C7_witness :
    (scrapeStep (fun _ => .error (String.mk (List.replicate 300 'x'))) "T" "u").content =
      "Error: " ++ strTake 200 (String.mk (List.replicate 300 'x')) ∧
    (strTake 200 (String.mk (List.replicate 300 'x'))).length ≤ 200 :=
  claim_C7 (fun _ => .error (String.mk (List.replicate 300 'x'))) "T" "u"
    (String.mk (List.replicate 300 'x')) rfl

/-- C9. Discovery is deterministic: equal homepage documents and equal
limits yield equal ordered URL lists. -/
theorem claim_C9 (doc1 doc2 : Node) (limit1 limit2 : Int)
    (hdoc : doc1 = doc2) (hlim : limit1 = limit2) :
    discoverUrls doc1 limit1 = discoverUrls doc2 limit2 := by
  rw [hdoc, hlim]

/-- Witness for C9 on a concrete homepage. -/
theorem claim_C9_witness : discoverUrls wDoc 2 = discoverUrls wDoc 2 :=
  claim_C9 wDoc wDoc 2 2 rfl rfl

/-- C10. The core function does not validate `limit`: for `limit ≤ 0` the
post-append equality test never fires, so the loop returns every
qualifying URL of the region instead of an empty or truncated list. -/
theorem claim_C10 (limit : Int) (hl : limit ≤ 0) :
    (∀ (acc hrefs : List String),
      collectUrls base_url limit acc hrefs = qualifyingUrls base_url acc hrefs) ∧
    (∀ (doc region : Node), findRegion doc = some region →
      discoverUrls doc limit = qualifyingUrls base_url [] (hrefsOf region)) := by
  constructor
  · intro acc hrefs
    exact collect_nolimit base_url hrefs limit acc hl
  · intro doc region hr
    unfold discoverUrls
    rw [hr]
    exact collect_nolimit base_url (hrefsOf region) limit [] hl

/-- Witness for C10: at `limit = 0` the loop returns all three qualifying
URLs of the concrete homepage. -/
theorem claim_C10_witness :
    discoverUrls wDoc 0 = qualifyingUrls base_url [] (hrefsOf wRegion) ∧
    (discoverUrls wDoc 0).length = 3 :=
  ⟨(claim_C10 0 (by decide)).2 wDoc wRegion rfl, rfl⟩

/-- C2. With a resolved region and `limit ≥ 1`, the discovered URL list has
no duplicates, never exceeds `limit` elements, preserves document encounter
order (it is a sublist of the resolved hrefs), stops scanning as soon as the
`limit`-th URL is accepted, and returns all qualifying URLs when fewer than
`limit` qualify. -/
theorem claim_C2 (doc region : Node) (limit : Int)
    (hr : findRegion doc = some region) (hl : 1 ≤ limit) :
    discoverUrls doc limit = collectUrls base_url limit [] (hrefsOf region) ∧
    (collectUrls base_url limit [] (hrefsOf region)).Nodup ∧
    ((collectUrls base_url limit [] (hrefsOf region)).length : Int) ≤ limit ∧
    List.Sublist (collectUrls base_url limit [] (hrefsOf region))
      ((hrefsOf region).map (resolveUrl base_url)) ∧
    (∀ p s, hrefsOf region = p ++ s →
      ((collectUrls base_url limit [] p).length : Int) = limit →
      collectUrls base_url limit [] (hrefsOf region) = collectUrls base_url limit [] p) ∧
    (((qualifyingUrls base_url [] (hrefsOf region)).length : Int) < limit →
      collectUrls base_url limit [] (hrefsOf region) =
        qualifyingUrls base_url [] (hrefsOf region)) := by
  have h0 : ((([] : List String)).length : Int) < limit := by
    simp only [List.length_nil, Nat.cast_zero]
    omega
  have htake := collect_eq_take base_url (hrefsOf region) limit [] h0
  obtain ⟨t, ht, hsub, hnd⟩ := qualifying_spec base_url (hrefsOf region) []
  rw [List.nil_append] at ht
  refine ⟨?_, ?_, ?_, ?_, ?_, ?_⟩
  · unfold discoverUrls
    rw [hr]
  · rw [htake, ht]
    exact (List.take_sublist _ _).nodup (by simpa using hnd List.nodup_nil)
  · rw [htake]
    have hle : ((qualifyingUrls base_url [] (hrefsOf region)).take limit.toNat).length ≤
        limit.toNat := by
      simp [List.length_take]
    omega
  · rw [htake, ht]
    exact (List.take_sublist _ _).trans hsub
  · intro p s hps hstop
    rw [hps]
    exact collect_limit_stop base_url p s limit [] h0 hstop
  · intro hlt
    rw [htake]
    exact List.take_of_length_le (by omega)

/-- Witness for C2 on the concrete homepage with `limit = 2`. -/
theorem claim_C2_witness :
    discoverUrls wDoc 2 = collectUrls base_url 2 [] (hrefsOf wRegion) ∧
    (collectUrls base_url 2 [] (hrefsOf wRegion)).Nodup ∧
    ((collectUrls base_url 2 [] (hrefsOf wRegion)).length : Int) ≤ 2 := by
  have h := claim_C2 wDoc wRegion 2 rfl (by decide)
  exact ⟨h.1, h.2.1, h.2.2.1⟩

/-- C3. Whenever some heading-like element (`h1`/`h2`/`h3`/`div`) has
trimmed, case-folded text exactly `"latest"`, the region is the parent of
the first such element in document order, and the outcome does not depend
on strategies 2 and 3 (which are never consulted). -/
theorem claim_C3 (doc : Node)
    (h : (docNodes doc).any (fun q => isLatestHeading q.1) = true) :
    ∃ hd par, (docNodes doc).find? (fun q => isLatestHeading q.1) = some (hd, par) ∧
      strat1 doc = some par ∧
      findRegion doc = some par ∧
      (∀ s2 s3, findRegionWith s2 s3 doc = some par) := by
  have hex : ∃ x, x ∈ docNodes doc ∧ isLatestHeading x.1 = true := by
    simpa [List.any_eq_true] using h
  have hsome : ((docNodes doc).find? (fun q => isLatestHeading q.1)).isSome := by
    rw [List.find?_isSome]
    exact hex
  obtain ⟨⟨hd, par⟩, hfind⟩ := Option.isSome_iff_exists.mp hsome
  have hstrat : strat1 doc = some par := by
    unfold strat1
    rw [hfind]
    rfl
  refine ⟨hd, par, hfind, hstrat, ?_, ?_⟩
  · show findRegionWith strat2 strat3 doc = some par
    unfold findRegionWith
    rw [hstrat]
  · intro s2 s3
    unfold findRegionWith
    rw [hstrat]

/-- Witness for C3 on the concrete homepage. -/
theorem claim_C3_witness :
    ∃ hd par, (docNodes wDoc).find? (fun q => isLatestHeading q.1) = some (hd, par) ∧
      strat1 wDoc = some par ∧
      findRegion wDoc = some par ∧
      (∀ s2 s3, findRegionWith s2 s3 wDoc = some par) :=
  claim_C3 wDoc rfl

/-- C4. URL acceptance: a leading-`/` href is resolved against the base URL
(other hrefs are kept as is), and the resolved URL is accepted exactly when
it contains the base URL, has at least 4 `'/'` characters, was not accepted
before, and contains none of the seven excluded substrings; rejected hrefs
leave the loop state unchanged, accepted ones are appended. -/
theorem claim_C4 (acc : List String) (href : String) :
    (strStartsWith href "/" = true → resolveUrl base_url href = base_url ++ href) ∧
    (strStartsWith href "/" = false → resolveUrl base_url href = href) ∧
    (acceptUrl base_url acc (resolveUrl base_url href) = true ↔
      (isSubstr base_url (resolveUrl base_url href) = true ∧
       4 ≤ countChar '/' (resolveUrl base_url href) ∧
       resolveUrl base_url href ∉ acc ∧
       isSubstr "/category/" (resolveUrl base_url href) = false ∧
       isSubstr "/tag/" (resolveUrl base_url href) = false ∧
       isSubstr "/author/" (resolveUrl base_url href) = false ∧
       isSubstr "#" (resolveUrl base_url href) = false ∧
       isSubstr "/buy-crypto/" (resolveUrl base_url href) = false ∧
       isSubstr "/events/" (resolveUrl base_url href) = false ∧
       isSubstr "/meme-coins/" (resolveUrl base_url href) = false)) ∧
    (∀ (limit : Int) (rest : List String),
      acceptUrl base_url acc (resolveUrl base_url href) = false →
      collectUrls base_url limit acc (href :: rest) = collectUrls base_url limit acc rest) ∧
    (∀ (limit : Int) (rest : List String),
      acceptUrl base_url acc (resolveUrl base_url href) = true →
      ∃ t, collectUrls base_url limit acc (href :: rest) =
        (acc ++ [resolveUrl base_url href]) ++ t) := by
  refine ⟨?_, ?_, ?_, ?_, ?_⟩
  · intro h
    simp [resolveUrl, h]
  · intro h
    simp [resolveUrl, h]
  · simp only [acceptUrl, Bool.and_eq_true, decide_eq_true_eq, Bool.not_eq_true',
      List.any_eq_false, bannedParts, List.forall_mem_cons, List.forall_mem_nil,
      List.elem_eq_mem, decide_eq_false_iff_not, Bool.not_eq_true]
    tauto
  · intro limit rest h
    simp [collectUrls, h]
  · intro limit rest h
    simp only [collectUrls, h, if_pos]
    split
    · exact ⟨[], (List.append_nil _).symm⟩
    · exact collect_append base_url limit rest (acc ++ [resolveUrl base_url href])

/-- Witness for C4 on a concrete relative href. -/
theorem claim_C4_witness :
    resolveUrl base_url "/markets/bitcoin-rallies/today/" =
      base_url ++ "/markets/bitcoin-rallies/today/" ∧
    acceptUrl base_url [] (resolveUrl base_url "/markets/bitcoin-rallies/today/") = true := by
  have h := claim_C4 [] "/markets/bitcoin-rallies/today/"
  refine ⟨h.1 rfl, ?_⟩
  exact (h.2.2.1).mpr (by refine ⟨rfl, by decide, by simp, rfl, rfl, rfl, rfl, rfl, rfl, rfl⟩)

/-- C5. When discovery yields a non-empty URL list, the batch holds exactly
one Article per discovered URL, in discovery order, and the defensive
"no articles scraped" branch after the loop is unreachable. -/
theorem claim_C5 (doc : Node) (fetch : String → Except String Node)
    (now : String) (limit : Int) (h : discoverUrls doc limit ≠ []) :
    scrape_crypto_news (.ok doc) fetch now limit =
      .ok ((discoverUrls doc limit).map (scrapeStep fetch now)) ∧
    ((discoverUrls doc limit).map (scrapeStep fetch now)).length =
      (discoverUrls doc limit).length ∧
    (∀ i : Nat,
      (((discoverUrls doc limit).map (scrapeStep fetch now))[i]?).map Article.url =
        (discoverUrls doc limit)[i]?) ∧
    scrape_crypto_news (.ok doc) fetch now limit ≠
      .error "No articles were scraped successfully" := by
  have hempty : (discoverUrls doc limit).isEmpty = false := by
    simpa [List.isEmpty_iff] using h
  have hmap : ((discoverUrls doc limit).map (scrapeStep fetch now)).isEmpty = false := by
    simp [List.isEmpty_iff, h]
  have hmain : scrape_crypto_news (.ok doc) fetch now limit =
      .ok ((discoverUrls doc limit).map (scrapeStep fetch now)) := by
    simp [scrape_crypto_news, hempty, hmap]
  refine ⟨hmain, List.length_map _ _, ?_, ?_⟩
  · intro i
    cases ho : (discoverUrls doc limit)[i]? with
    | none => simp [List.getElem?_map, ho]
    | some u => simp [List.getElem?_map, ho, scrapeStep_url]
  · rw [hmain]
    simp

/-- Witness for C5 on the concrete homepage. -/
theorem claim_C5_witness :
    scrape_crypto_news (.ok wDoc) (fun _ => .error "net") "T" 2 =
      .ok ((discoverUrls wDoc 2).map (scrapeStep (fun _ => .error "net") "T")) ∧
    ((discoverUrls wDoc 2).map (scrapeStep (fun _ => .error "net") "T")).length =
      (discoverUrls wDoc 2).length := by
  have h := claim_C5 wDoc (fun _ => .error "net") "T" 2 (by decide)
  exact ⟨h.1, h.2.1⟩

/-- C6 counterexample: the code raises the same exception message in both
discovery failure modes — no region found (`docNoLatest`) and region found
but zero URLs accepted (`docLatestNoUrls`) — and neither message is the
distinct `"no latest section found"` / `"no articles found"` pair the claim
asserts. -/
theorem claim_C6_counterexample :
    (scrape_crypto_news (.ok docNoLatest) (fun _ => .error "net") "T" 3 =
      .error "Could not find articles. Website structure may have changed.") ∧
    (scrape_crypto_news (.ok docLatestNoUrls) (fun _ => .error "net") "T" 3 =
      .error "Could not find articles. Website structure may have changed.") ∧
    findRegion docNoLatest = none ∧
    (findRegion docLatestNoUrls).isSome = true ∧
    discoverUrls docLatestNoUrls 3 = [] ∧
    scrape_crypto_news (.ok docNoLatest) (fun _ => .error "net") "T" 3 ≠
      .error "no latest section found" ∧
    scrape_crypto_news (.ok docLatestNoUrls) (fun _ => .error "net") "T" 3 ≠
      .error "no articles found" := by
  refine ⟨rfl, rfl, rfl, rfl, rfl, ?_, ?_⟩
  · intro hcontra
    have h2 : (Except.error "Could not find articles. Website structure may have changed." :
        Except String (List Article)) = .error "no latest section found" := hcontra
    exact absurd (Except.error.inj h2) (by decide)
  · intro hcontra
    have h2 : (Except.error "Could not find articles. Website structure may have changed." :
        Except String (List Article)) = .error "no articles found" := hcontra
    exact absurd (Except.error.inj h2) (by decide)

/-- C6 amended: discovery does not distinguish its two failure modes — both
when no strategy yields a region and when a region is found but zero URLs
are accepted, the operation fails with the same message
`"Could not find articles. Website structure may have changed."`. -/
theorem claim_C6_amended (doc : Node) (fetch : String → Except String Node)
    (now : String) (limit : Int) :
    (findRegion doc = none →
      scrape_crypto_news (.ok doc) fetch now limit =
        .error "Could not find articles. Website structure may have changed.") ∧
    (∀ region, findRegion doc = some region →
      collectUrls base_url limit [] (hrefsOf region) = [] →
      scrape_crypto_news (.ok doc) fetch now limit =
        .error "Could not find articles. Website structure may have changed.") := by
  constructor
  · intro h
    simp [scrape_crypto_news, discoverUrls, h]
  · intro region hr hc
    simp [scrape_crypto_news, discoverUrls, hr, hc]

/-- Witness for the amended C6 in the no-region failure mode. -/
theorem claim_C6_amended_witness :
    scrape_crypto_news (.ok docNoLatest) (fun _ => .error "net") "T" 3 =
      .error "Could not find articles. Website structure may have changed." :=
  (claim_C6_amended docNoLatest (fun _ => .error "net") "T" 3).1 rfl

/-- C8. Field extraction: the title is the stripped text of the first
level-1 heading (empty if none), the content joins with blank lines the
stripped texts of the paragraphs of the first `article` container whose
length exceeds 50 (empty if no container), and the concrete
`"Bitcoin Hits $100K"` page with no `article` container extracts
`title = "Bitcoin Hits $100K"`, `content = ""`. -/
theorem claim_C8 (url now : String) (doc : Node) :
    ((descendants doc).find? (fun n => n.tagName == some "h1") = none →
      (extractArticle url doc now).title = "") ∧
    (∀ h1, (descendants doc).find? (fun n => n.tagName == some "h1") = some h1 →
      (extractArticle url doc now).title = getTextStrip h1) ∧
    ((descendants doc).find? (fun n => n.tagName == some "article") = none →
      (extractArticle url doc now).content = "") ∧
    (∀ a, (descendants doc).find? (fun n => n.tagName == some "article") = some a →
      (extractArticle url doc now).content = String.intercalate "\n\n"
        ((((descendants a).filter (fun n => n.tagName == some "p")).map getTextStrip).filter
          (fun t => 50 < t.length))) ∧
    extractArticle "u" bitcoinDoc "T" =
      { url := "u", title := "Bitcoin Hits $100K", summary := "",
        content := "", date := "", scraped_at := "T" } := by
  refine ⟨?_, ?_, ?_, ?_, rfl⟩
  · intro h
    simp [extractArticle, extractTitle, findTag, h]
  · intro h1 h
    simp [extractArticle, extractTitle, findTag, h]
  · intro h
    simp [extractArticle, extractContent, findTag, h]
    rfl
  · intro a h
    simp [extractArticle, extractContent, findTag, paragraphTexts, h]

/-- Witness for C8: a page with no level-1 heading gets an empty title, and
the Bitcoin page's title is the stripped text of its heading. -/
theorem claim_C8_witness :
    (extractArticle "u" docNoLatest "T").title = "" ∧
    (extractArticle "u" bitcoinDoc "T").title =
      getTextStrip (.elem "h1" [] (NodeList.ofList [.text "Bitcoin Hits $100K"])) :=
  ⟨(claim_C8 "u" "T" docNoLatest).1 rfl, (claim_C8 "u" "T" bitcoinDoc).2.1 _ rfl⟩

end CryptoApi
